import Mathlib

/-!
Verification of the cut-planning core of a video story editor.

The development shallowly embeds the Python classes `TimelineCut`,
`TimelineScene` and `TimelineManager` from `src/core/timeline_manager.py`
and the `SceneDetector` algorithms from `src/core/scene_detector.py`.
Python floats are modelled as rationals (`ℚ`, exact arithmetic), Python
ints as `Int`/`Nat`, Python lists as `List`, and the JSON persistence
record as an explicit structure of optional fields (`Option` models a
possibly-missing dictionary key; a missing required key makes the parser
return `none`, modelling the `KeyError` that the Python code catches).
`random.uniform` draws are modelled by an explicit oracle
`rnd : Nat → ℚ × ℚ` indexed by the number of cuts generated so far;
theorems that need the draws to be in range take an admissibility
hypothesis mirroring `random.uniform`'s bounds.
-/

/-- Embeds the Python class `TimelineCut` (timeline_manager.py, lines 12-59).
`effects` holds opaque effect descriptors. -/
structure TimelineCut where
  cut_id : Int
  start_time : ℚ
  end_time : ℚ
  duration : ℚ
  scene_id : Int
  order_index : Int
  selected : Bool
  enabled : Bool
  effects : List String
deriving DecidableEq, Repr

/-- Embeds the `TimelineCut.__init__` constructor: `duration = end_time - start_time`,
`order_index = cut_id`, `selected = False`, `enabled = True`, `effects = []`. -/
def TimelineCut.make (cut_id : Int) (start_time end_time : ℚ) (scene_id : Int) : TimelineCut :=
  { cut_id := cut_id
    start_time := start_time
    end_time := end_time
    duration := end_time - start_time
    scene_id := scene_id
    order_index := cut_id
    selected := false
    enabled := true
    effects := [] }

/-- Embeds the Python class `TimelineScene` (timeline_manager.py, lines 61-112).
`cuts` is the scene's list of cut ids. -/
structure TimelineScene where
  scene_id : Int
  start_time : ℚ
  end_time : ℚ
  duration : ℚ
  cuts : List Int
  selected : Bool
  color : String
deriving DecidableEq, Repr

/-- Embeds the `TimelineScene.__init__` constructor. -/
def TimelineScene.make (scene_id : Int) (start_time end_time : ℚ) : TimelineScene :=
  { scene_id := scene_id
    start_time := start_time
    end_time := end_time
    duration := end_time - start_time
    cuts := []
    selected := false
    color := "#6b46c1" }

/-- Embeds `TimelineScene.add_cut`: appends the cut's id to the scene's id list. -/
def TimelineScene.add_cut (sc : TimelineScene) (cut : TimelineCut) : TimelineScene :=
  { sc with cuts := sc.cuts ++ [cut.cut_id] }

/-- Embeds `TimelineScene.remove_cut`: removes the first occurrence of the id,
no-op when absent (Python guards with a membership test; `List.erase` matches). -/
def TimelineScene.removeCut (sc : TimelineScene) (cut_id : Int) : TimelineScene :=
  { sc with cuts := sc.cuts.erase cut_id }

/-- Embeds the mutable state of the Python class `TimelineManager`
(timeline_manager.py, lines 114-131); the logger and temp manager carry no
timeline semantics and are omitted. -/
structure TimelineManager where
  cuts : List TimelineCut
  scenes : List TimelineScene
  timeline_duration : ℚ
  min_cut_duration : ℚ
  max_cut_duration : ℚ
  min_scene_duration : ℚ
deriving DecidableEq, Repr

/-- Embeds `TimelineManager.__init__`: empty timeline with the default settings
3.0 / 7.0 / 3.0. -/
def TimelineManager.init : TimelineManager :=
  { cuts := []
    scenes := []
    timeline_duration := 0
    min_cut_duration := 3
    max_cut_duration := 7
    min_scene_duration := 3 }

/-- Replaces the element at index `i` (no-op out of range), used to model the
in-place mutation `self.scenes[scene_id].add_cut(cut)`. -/
def modifyIdx {α : Type} : List α → Nat → (α → α) → List α
  | [], _, _ => []
  | a :: t, 0, f => f a :: t
  | a :: t, n + 1, f => a :: modifyIdx t n f

/-- Embeds `TimelineManager.update_timeline_duration` (lines 317-322), including
the Python `if self.cuts:` branch that resets the duration to 0.0 when empty. -/
def TimelineManager.update_timeline_duration (tm : TimelineManager) : TimelineManager :=
  if tm.cuts.isEmpty then { tm with timeline_duration := 0 }
  else { tm with timeline_duration := (tm.cuts.map (fun c => c.duration)).sum }

/-- Embeds `TimelineManager.add_cut` (lines 133-172): rejects when the duration
is outside `[min_cut_duration, max_cut_duration]`; otherwise appends a cut with
`cut_id = len(cuts)`, registers it with the owning scene when `scene_id` is a
valid index, and recomputes the timeline duration. -/
def TimelineManager.add_cut (tm : TimelineManager) (start_time end_time : ℚ)
    (scene_id : Int) : TimelineManager × Option TimelineCut :=
  let duration := end_time - start_time
  if duration < tm.min_cut_duration then (tm, none)
  else if duration > tm.max_cut_duration then (tm, none)
  else
    let cut := TimelineCut.make (tm.cuts.length : Int) start_time end_time scene_id
    let tm1 := { tm with cuts := tm.cuts ++ [cut] }
    let tm2 :=
      if 0 ≤ scene_id ∧ scene_id < (tm1.scenes.length : Int) then
        { tm1 with scenes := modifyIdx tm1.scenes scene_id.toNat (fun sc => sc.add_cut cut) }
      else tm1
    (tm2.update_timeline_duration, some cut)

/-- Embeds `TimelineManager.add_scene` (lines 198-223): rejects when the duration
is below `min_scene_duration`; otherwise appends a scene with
`scene_id = len(scenes)`. -/
def TimelineManager.add_scene (tm : TimelineManager) (start_time end_time : ℚ) :
    TimelineManager × Option TimelineScene :=
  if end_time - start_time < tm.min_scene_duration then (tm, none)
  else
    let sc := TimelineScene.make (tm.scenes.length : Int) start_time end_time
    ({ tm with scenes := tm.scenes ++ [sc] }, some sc)

/-- Finds the first cut with the given id together with its position, embedding
the `for i, cut in enumerate(self.cuts)` search of `remove_cut`. -/
def findCut (cut_id : Int) : List TimelineCut → Option (Nat × TimelineCut)
  | [] => none
  | c :: t =>
    if c.cut_id = cut_id then some (0, c)
    else (findCut cut_id t).map (fun p => (p.1 + 1, p.2))

/-- Embeds `TimelineManager.remove_cut` (lines 174-196): detaches the first cut
with a matching id from its owning scene, removes it from the cut list,
recomputes the duration; returns `false` and leaves the state unchanged when
the id is unknown. -/
def TimelineManager.remove_cut (tm : TimelineManager) (cut_id : Int) :
    TimelineManager × Bool :=
  match findCut cut_id tm.cuts with
  | none => (tm, false)
  | some (i, c) =>
    let scenes' :=
      if 0 ≤ c.scene_id ∧ c.scene_id < (tm.scenes.length : Int) then
        modifyIdx tm.scenes c.scene_id.toNat (fun sc => sc.removeCut cut_id)
      else tm.scenes
    let tm1 := { tm with scenes := scenes', cuts := tm.cuts.eraseIdx i }
    (tm1.update_timeline_duration, true)

/-- Embeds `TimelineManager.clear_timeline` (lines 344-349). -/
def TimelineManager.clear_timeline (tm : TimelineManager) : TimelineManager :=
  { tm with cuts := [], scenes := [], timeline_duration := 0 }

/-- Loop of `TimelineManager.generate_cuts_from_scenes` (lines 225-263): one
random cut per scene of duration at least `min_cut_duration`, with
`cut_id = len(cuts)` at creation time; the owning scene's id list receives the
new id. The oracle `rnd k = (cut_duration, cut_start)` supplies the two
`random.uniform` draws for the `k`-th generated cut. -/
def genCutsLoop (minD maxD : ℚ) (rnd : Nat → ℚ × ℚ) :
    List TimelineScene → Nat → List TimelineScene × List TimelineCut
  | [], _ => ([], [])
  | sc :: rest, k =>
    if sc.duration < minD then
      let r := genCutsLoop minD maxD rnd rest k
      (sc :: r.1, r.2)
    else
      let cut := TimelineCut.make (k : Int) (rnd k).2 ((rnd k).2 + (rnd k).1) sc.scene_id
      let sc' := sc.add_cut cut
      let r := genCutsLoop minD maxD rnd rest (k + 1)
      (sc' :: r.1, cut :: r.2)

/-- Embeds `TimelineManager.generate_cuts_from_scenes` (lines 225-263): replaces
the whole cut collection with freshly generated cuts and recomputes the
timeline duration; `maxD` is threaded because the Python code draws from
`uniform(min_cut_duration, min(max_cut_duration, scene_duration))`. -/
def TimelineManager.generate_cuts_from_scenes (tm : TimelineManager)
    (rnd : Nat → ℚ × ℚ) : TimelineManager × List TimelineCut :=
  let r := genCutsLoop tm.min_cut_duration tm.max_cut_duration rnd tm.scenes 0
  (({ tm with scenes := r.1, cuts := r.2 }).update_timeline_duration, r.2)

/-- First pass of `create_zigzag_sequence` (timeline_manager.py lines 265-295 and
identically scene_detector.py lines 129-162): even loop indices are appended
directly, odd indices contribute `n - 1 - (i // 2)` when that value is larger
than `i` and below `n`. -/
def zigzagRaw (n : Nat) : List Nat :=
  (List.range n).flatMap (fun i =>
    if i % 2 = 0 then
      if i < n then [i] else []
    else
      let reverse_index := n - 1 - (i / 2)
      if reverse_index > i ∧ reverse_index < n then [reverse_index] else [])

/-- Embeds `list(dict.fromkeys(sequence))`: removes duplicates keeping the first
occurrence; `seen` accumulates the values already emitted. -/
def dedupKeepFirst : List Nat → List Nat → List Nat
  | [], _ => []
  | a :: t, seen =>
    if a ∈ seen then dedupKeepFirst t seen
    else a :: dedupKeepFirst t (seen ++ [a])

/-- Embeds the completion loop `for i in range(n): if i not in sequence:
sequence.append(i)`. -/
def addMissing (n : Nat) (s : List Nat) : List Nat :=
  (List.range n).foldl (fun acc i => if i ∈ acc then acc else acc ++ [i]) s

/-- Embeds `create_zigzag_sequence` as a function of the cut count `n` (the
Python methods read nothing but `len(self.cuts)` / `len(cuts)`). -/
def create_zigzag_sequence (n : Nat) : List Nat :=
  addMissing n (dedupKeepFirst (zigzagRaw n) [])

example : create_zigzag_sequence 0 = [] := by decide
example : create_zigzag_sequence 1 = [0] := by decide
example : create_zigzag_sequence 3 = [0, 2, 1] := by decide
example : create_zigzag_sequence 4 = [0, 3, 2, 1] := by decide
example : create_zigzag_sequence 5 = [0, 4, 2, 1, 3] := by decide
example : create_zigzag_sequence 8 = [0, 7, 2, 6, 4, 1, 3, 5] := by decide

/-- Validation findings of `validate_timeline`; each constructor stands for
exactly one of the message strings the Python code appends (`"Cuts {i} and {j}
overlap"`, `"Cut {i} is too short/long"`, `"Scene {i} is too short"`). -/
inductive Issue where
  | overlap (i j : Nat)
  | cutTooShort (i : Nat)
  | cutTooLong (i : Nat)
  | sceneTooShort (i : Nat)
deriving DecidableEq, Repr

/-- Inner loop of the overlap scan: compares `c` (at index `i`) against every
later cut, `j` enumerating from `i + 1`. -/
def overlapWith (i : Nat) (c : TimelineCut) : List TimelineCut → Nat → List Issue
  | [], _ => []
  | c2 :: t, j =>
    (if c.start_time < c2.end_time ∧ c.end_time > c2.start_time
     then [Issue.overlap i j] else []) ++ overlapWith i c t (j + 1)

/-- Outer loop of the overlap scan of `validate_timeline` (lines 431-434): every
unordered pair of cuts is checked once, regardless of the `enabled` flag. -/
def overlapScan : List TimelineCut → Nat → List Issue
  | [], _ => []
  | c :: t, i => overlapWith i c t (i + 1) ++ overlapScan t (i + 1)

/-- Duration checks of `validate_timeline` (lines 437-441). -/
def durationIssues (mn mx : ℚ) : List TimelineCut → Nat → List Issue
  | [], _ => []
  | c :: t, i =>
    (if c.duration < mn then [Issue.cutTooShort i] else []) ++
      (if c.duration > mx then [Issue.cutTooLong i] else []) ++
      durationIssues mn mx t (i + 1)

/-- Scene-duration checks of `validate_timeline` (lines 444-446). -/
def sceneIssues (mn : ℚ) : List TimelineScene → Nat → List Issue
  | [], _ => []
  | s :: t, i =>
    (if s.duration < mn then [Issue.sceneTooShort i] else []) ++
      sceneIssues mn t (i + 1)

/-- Embeds `TimelineManager.validate_timeline` (lines 421-448): scans all cut
pairs for temporal overlap, all cuts for duration-bound violations and all
scenes for sub-minimum duration, collecting every finding. -/
def TimelineManager.validate_timeline (tm : TimelineManager) : List Issue :=
  overlapScan tm.cuts 0 ++
    durationIssues tm.min_cut_duration tm.max_cut_duration tm.cuts 0 ++
    sceneIssues tm.min_scene_duration tm.scenes 0

/-- Serialized form of a cut (the JSON object written by `TimelineCut.to_dict`);
`Option` marks keys that may be absent in a hand-made or damaged record. -/
structure CutDict where
  cut_id : Option Int
  start : Option ℚ
  end_ : Option ℚ
  duration : Option ℚ
  scene_id : Option Int
  order_index : Option Int
  selected : Option Bool
  enabled : Option Bool
  effects : Option (List String)
deriving DecidableEq, Repr

/-- Serialized form of a scene (the JSON object written by
`TimelineScene.to_dict`). -/
structure SceneDict where
  scene_id : Option Int
  start : Option ℚ
  end_ : Option ℚ
  duration : Option ℚ
  cuts : Option (List Int)
  selected : Option Bool
  color : Option String
deriving DecidableEq, Repr

/-- Serialized settings block of the timeline record. -/
structure SettingsDict where
  min_cut_duration : Option ℚ
  max_cut_duration : Option ℚ
  min_scene_duration : Option ℚ
deriving DecidableEq, Repr

/-- Value stored under the top-level `settings` key: a JSON object, or a JSON
value of any other type (`null`, a number, a list, …) on which the Python
code's `settings.get(...)` attribute access raises `AttributeError`. -/
inductive SettingsValue where
  | dict (d : SettingsDict)
  | notDict
deriving DecidableEq, Repr

/-- Parsed timeline record (`timeline_data` in the Python code); each of the
three top-level keys may be absent (`dict.get` with a default). -/
structure TimelineData where
  cuts : Option (List CutDict)
  scenes : Option (List SceneDict)
  settings : Option SettingsValue
deriving DecidableEq, Repr

/-- Embeds `TimelineCut.to_dict` (lines 30-42): every key present. -/
def TimelineCut.to_dict (c : TimelineCut) : CutDict :=
  { cut_id := some c.cut_id
    start := some c.start_time
    end_ := some c.end_time
    duration := some c.duration
    scene_id := some c.scene_id
    order_index := some c.order_index
    selected := some c.selected
    enabled := some c.enabled
    effects := some c.effects }

/-- Embeds `TimelineCut.from_dict` (lines 44-56): the keys `cut_id`, `start`,
`end` are required (a missing one raises `KeyError`, here `none`); `scene_id`,
`selected`, `enabled`, `effects` default; `duration` and `order_index` are
recomputed by the constructor and the stored values ignored. -/
def TimelineCut.from_dict (d : CutDict) : Option TimelineCut :=
  match d.cut_id, d.start, d.end_ with
  | some cid, some s, some e =>
    some { TimelineCut.make cid s e (d.scene_id.getD (-1)) with
             selected := d.selected.getD false
             enabled := d.enabled.getD true
             effects := d.effects.getD [] }
  | _, _, _ => none

/-- Embeds `TimelineScene.to_dict` (lines 86-96). -/
def TimelineScene.to_dict (s : TimelineScene) : SceneDict :=
  { scene_id := some s.scene_id
    start := some s.start_time
    end_ := some s.end_time
    duration := some s.duration
    cuts := some s.cuts
    selected := some s.selected
    color := some s.color }

/-- Embeds `TimelineScene.from_dict` (lines 98-109): `scene_id`, `start`, `end`
required; `cuts`, `selected`, `color` default; `duration` recomputed. -/
def TimelineScene.from_dict (d : SceneDict) : Option TimelineScene :=
  match d.scene_id, d.start, d.end_ with
  | some sid, some s, some e =>
    some { TimelineScene.make sid s e with
             cuts := d.cuts.getD []
             selected := d.selected.getD false
             color := d.color.getD "#6b46c1" }
  | _, _, _ => none

/-- Runs a parser over a list, failing as a whole when any element fails; this
models a Python list comprehension in which any element may raise. -/
def parseAll {α β : Type} (f : α → Option β) : List α → Option (List β)
  | [] => some []
  | a :: t =>
    match f a, parseAll f t with
    | some b, some bs => some (b :: bs)
    | _, _ => none

/-- Embeds the record built by `TimelineManager.save_timeline` (lines 351-380);
the file write itself is abstracted away, the structured record is the
contract (spec section 6). -/
def TimelineManager.save_timeline (tm : TimelineManager) : TimelineData :=
  { cuts := some (tm.cuts.map TimelineCut.to_dict)
    scenes := some (tm.scenes.map TimelineScene.to_dict)
    settings := some (.dict
      { min_cut_duration := some tm.min_cut_duration
        max_cut_duration := some tm.max_cut_duration
        min_scene_duration := some tm.min_scene_duration }) }

/-- The three ways the persisted file can present itself to `load_timeline`:
absent, present but not valid JSON, or parsed into a record. -/
inductive LoadFile where
  | missing
  | corrupt
  | parsed (data : TimelineData)
deriving DecidableEq, Repr

/-- Embeds `TimelineManager.load_timeline` (lines 382-419). The assignment order
of the Python method is kept: `self.cuts` is replaced first (line 401), then
`self.scenes` (line 404), then the settings are read; a failure while parsing
the scene records leaves the replaced cut list in place, and a `settings` key
holding a non-dict value raises only at the first `settings.get` (line 408),
after both collections have been replaced (the surrounding `try` only converts
the exception into `return False`). A missing `settings` key falls back to the
empty dict, and each setting falls back to its default 3.0 / 7.0 / 3.0 via
`dict.get`. -/
def TimelineManager.load_timeline (tm : TimelineManager) (f : LoadFile) :
    TimelineManager × Bool :=
  match f with
  | .missing => (tm, false)
  | .corrupt => (tm, false)
  | .parsed data =>
    match parseAll TimelineCut.from_dict (data.cuts.getD []) with
    | none => (tm, false)
    | some newCuts =>
      let tm1 := { tm with cuts := newCuts }
      match parseAll TimelineScene.from_dict (data.scenes.getD []) with
      | none => (tm1, false)
      | some newScenes =>
        let tm2 := { tm1 with scenes := newScenes }
        match data.settings.getD (.dict ⟨none, none, none⟩) with
        | .notDict => (tm2, false)
        | .dict st =>
          let tm3 := { tm2 with
            min_cut_duration := st.min_cut_duration.getD 3
            max_cut_duration := st.max_cut_duration.getD 7
            min_scene_duration := st.min_scene_duration.getD 3 }
          (tm3.update_timeline_duration, true)

/-- Cut record produced by `SceneDetector.generate_fair_use_cuts`
(scene_detector.py, lines 88-127): the dictionary
`{scene_id, start, end, duration, cut_id}`. -/
structure FairUseCut where
  scene_id : Nat
  start : ℚ
  end_ : ℚ
  duration : ℚ
  cut_id : Nat
deriving DecidableEq, Repr

/-- Loop of `generate_fair_use_cuts`: `idx` is the enumeration index of the
current scene, `k` the number of cuts emitted so far (`len(cuts)`); the oracle
`rnd k = (cut_duration, cut_start)` supplies the two `random.uniform` draws of
the `k`-th emitted cut. -/
def fairUseLoop (minD maxD : ℚ) (rnd : Nat → ℚ × ℚ) :
    List (ℚ × ℚ) → Nat → Nat → List FairUseCut
  | [], _, _ => []
  | (s, e) :: rest, idx, k =>
    if e - s < minD then fairUseLoop minD maxD rnd rest (idx + 1) k
    else
      { scene_id := idx
        start := (rnd k).2
        end_ := (rnd k).2 + (rnd k).1
        duration := (rnd k).1
        cut_id := k } :: fairUseLoop minD maxD rnd rest (idx + 1) (k + 1)

/-- Embeds `SceneDetector.generate_fair_use_cuts` (lines 88-127); `maxD` is
threaded because the duration draw is
`uniform(min_duration, min(max_duration, scene_duration))`. -/
def generate_fair_use_cuts (scenes : List (ℚ × ℚ)) (minD maxD : ℚ)
    (rnd : Nat → ℚ × ℚ) : List FairUseCut :=
  fairUseLoop minD maxD rnd scenes 0 0

/-- Admissibility of the oracle draws for a scene list, starting at cut counter
`k`: for each eligible scene the duration draw lies in
`[min_duration, min(max_duration, scene_duration)]` and the start draw in
`[scene_start, scene_end - cut_duration]`, exactly the ranges `random.uniform`
is called with. -/
def AdmissibleFrom (minD maxD : ℚ) (rnd : Nat → ℚ × ℚ) :
    List (ℚ × ℚ) → Nat → Prop
  | [], _ => True
  | (s, e) :: rest, k =>
    if e - s < minD then AdmissibleFrom minD maxD rnd rest k
    else
      (minD ≤ (rnd k).1 ∧ (rnd k).1 ≤ min maxD (e - s) ∧
        s ≤ (rnd k).2 ∧ (rnd k).2 ≤ e - (rnd k).1) ∧
        AdmissibleFrom minD maxD rnd rest (k + 1)

/-- One iteration of the frame loop of `SceneDetector.detect_scenes`
(scene_detector.py, lines 47-73) at frame index `i`, acting on the state
`(scenes, scene_start)`: for `i ≥ 1` the histogram correlation `corr i`
between frames `i - 1` and `i` is compared against `1 - sensitivity`; a drop
closes the current scene at `i / fps` provided it is at least
`min_scene_duration` long. -/
def detectStep (sens minDur fps : ℚ) (corr : Nat → ℚ) (i : Nat)
    (st : List (ℚ × ℚ) × ℚ) : List (ℚ × ℚ) × ℚ :=
  if 1 ≤ i ∧ corr i < 1 - sens then
    let t := (i : ℚ) / fps
    if minDur ≤ t - st.2 then (st.1 ++ [(st.2, t)], t) else st
  else st

/-- State after the frame loop has processed frames `0, …, k - 1`. -/
def detectLoop (sens minDur fps : ℚ) (corr : Nat → ℚ) : Nat → List (ℚ × ℚ) × ℚ
  | 0 => ([], 0)
  | k + 1 => detectStep sens minDur fps corr k (detectLoop sens minDur fps corr k)

/-- Embeds `SceneDetector.detect_scenes` (lines 24-86) over an abstract
similarity stream: `corr i` is the correlation `compareHist` returns at frame
`i`, `fps` the frame rate, `frame_count` the number of readable frames. After
the loop the trailing scene `(scene_start, total_duration)` is appended when it
meets the minimum duration, otherwise silently dropped. -/
def detect_scenes (sens minDur fps : ℚ) (corr : Nat → ℚ) (frame_count : Nat) :
    List (ℚ × ℚ) :=
  let st := detectLoop sens minDur fps corr frame_count
  let total : ℚ := (frame_count : ℚ) / fps
  if minDur ≤ total - st.2 then st.1 ++ [(st.2, total)] else st.1

/-- Scene lists produced by the detector are contiguous: `ChainFromTo a D b`
says the spans in `D` tile the interval from `a` to `b` exactly, each scene
starting where the previous one ended. -/
def ChainFromTo : ℚ → List (ℚ × ℚ) → ℚ → Prop
  | a, [], b => a = b
  | a, p :: t, b => p.1 = a ∧ ChainFromTo p.2 t b

lemma zigzagRaw_lt {n x : Nat} (hx : x ∈ zigzagRaw n) : x < n := by
  simp only [zigzagRaw, List.mem_flatMap, List.mem_range] at hx
  obtain ⟨i, hi, hmem⟩ := hx
  split at hmem
  · simp only [List.mem_singleton] at hmem
    omega
  · split at hmem
    · simp only [List.mem_singleton] at hmem
      next hguard _ =>
        omega
    · simp at hmem

lemma mem_of_mem_dedupKeepFirst :
    ∀ (l seen : List Nat) (x : Nat), x ∈ dedupKeepFirst l seen → x ∈ l := by
  intro l
  induction l with
  | nil => intro seen x h; simp [dedupKeepFirst] at h
  | cons a t ih =>
    intro seen x h
    simp only [dedupKeepFirst] at h
    split at h
    · exact List.mem_cons_of_mem _ (ih _ _ h)
    · rcases List.mem_cons.mp h with rfl | h'
      · exact List.mem_cons_self _ _
      · exact List.mem_cons_of_mem _ (ih _ _ h')

lemma dedupKeepFirst_nodup :
    ∀ (l seen : List Nat),
      (∀ x ∈ dedupKeepFirst l seen, x ∉ seen) ∧ (dedupKeepFirst l seen).Nodup := by
  intro l
  induction l with
  | nil => intro seen; simp [dedupKeepFirst]
  | cons a t ih =>
    intro seen
    simp only [dedupKeepFirst]
    split
    · exact ih seen
    · next ha =>
      obtain ⟨hnot, hnd⟩ := ih (seen ++ [a])
      refine ⟨?_, ?_⟩
      · intro x hx
        rcases List.mem_cons.mp hx with rfl | hx'
        · exact ha
        · have := hnot x hx'
          intro hxs
          exact this (List.mem_append_left _ hxs)
      · refine List.nodup_cons.mpr ⟨?_, hnd⟩
        intro hmem
        exact hnot a hmem (List.mem_append_right _ (List.mem_singleton.mpr rfl))

lemma foldl_addMissing :
    ∀ (l : List Nat), l.Nodup → ∀ s : List Nat,
      l.foldl (fun acc i => if i ∈ acc then acc else acc ++ [i]) s
        = s ++ l.filter (fun i => decide (i ∉ s)) := by
  intro l
  induction l with
  | nil => intro _ s; simp
  | cons a t ih =>
    intro hnd s
    have hat : a ∉ t := (List.nodup_cons.mp hnd).1
    have ht : t.Nodup := (List.nodup_cons.mp hnd).2
    simp only [List.foldl_cons, List.filter_cons]
    by_cases h : a ∈ s
    · simp only [if_pos h, ih ht s]
      simp [h]
    · simp only [if_neg h, ih ht (s ++ [a])]
      have hfil : t.filter (fun i => decide (i ∉ s ++ [a]))
          = t.filter (fun i => decide (i ∉ s)) := by
        apply List.filter_congr
        intro x hx
        have hxa : x ≠ a := fun heq => hat (heq ▸ hx)
        simp [List.mem_append, hxa]
      rw [hfil]
      simp [h, List.append_assoc]

lemma dedup_zigzagRaw_perm_filter (n : Nat) :
    (dedupKeepFirst (zigzagRaw n) []).Perm
      ((List.range n).filter (fun i => decide (i ∈ dedupKeepFirst (zigzagRaw n) []))) := by
  set s := dedupKeepFirst (zigzagRaw n) [] with hs
  have hnd : s.Nodup := (dedupKeepFirst_nodup (zigzagRaw n) []).2
  have hlt : ∀ x ∈ s, x < n := fun x hx =>
    zigzagRaw_lt (mem_of_mem_dedupKeepFirst _ _ _ hx)
  have hndf : ((List.range n).filter (fun i => decide (i ∈ s))).Nodup :=
    (List.nodup_range n).filter _
  rw [List.perm_ext_iff_of_nodup hnd hndf]
  intro x
  simp only [List.mem_filter, List.mem_range, decide_eq_true_eq]
  constructor
  · intro hx; exact ⟨hlt x hx, hx⟩
  · intro hx; exact hx.2

/-- C1: for every `n ≥ 0`, `create_zigzag_sequence` over a cut list of length
`n` returns a permutation of the indices `0, …, n - 1`: every index below `n`
appears exactly once and nothing else appears. -/
theorem create_zigzag_sequence_perm (n : Nat) :
    (create_zigzag_sequence n).Perm (List.range n) := by
  unfold create_zigzag_sequence addMissing
  set s := dedupKeepFirst (zigzagRaw n) [] with hs
  rw [foldl_addMissing (List.range n) (List.nodup_range n) s]
  have h1 : (s ++ (List.range n).filter (fun i => decide (i ∉ s))).Perm
      ((List.range n).filter (fun i => decide (i ∈ s)) ++
        (List.range n).filter (fun i => decide (i ∉ s))) :=
    (dedup_zigzagRaw_perm_filter n).append_right _
  refine h1.trans ?_
  have h2 := List.filter_append_perm (fun i => decide (i ∈ s)) (List.range n)
  have hrw : (List.range n).filter (fun i => !decide (i ∈ s))
      = (List.range n).filter (fun i => decide (i ∉ s)) := by
    apply List.filter_congr
    intro x _
    simp
  rw [hrw] at h2
  exact h2

lemma update_timeline_duration_cuts (tm : TimelineManager) :
    tm.update_timeline_duration.cuts = tm.cuts := by
  unfold TimelineManager.update_timeline_duration
  split <;> rfl

lemma update_timeline_duration_scenes (tm : TimelineManager) :
    tm.update_timeline_duration.scenes = tm.scenes := by
  unfold TimelineManager.update_timeline_duration
  split <;> rfl

lemma update_timeline_duration_minCut (tm : TimelineManager) :
    tm.update_timeline_duration.min_cut_duration = tm.min_cut_duration := by
  unfold TimelineManager.update_timeline_duration
  split <;> rfl

lemma update_timeline_duration_maxCut (tm : TimelineManager) :
    tm.update_timeline_duration.max_cut_duration = tm.max_cut_duration := by
  unfold TimelineManager.update_timeline_duration
  split <;> rfl

lemma update_timeline_duration_minScene (tm : TimelineManager) :
    tm.update_timeline_duration.min_scene_duration = tm.min_scene_duration := by
  unfold TimelineManager.update_timeline_duration
  split <;> rfl

lemma update_timeline_duration_sum (tm : TimelineManager) :
    tm.update_timeline_duration.timeline_duration
      = (tm.cuts.map (fun c => c.duration)).sum := by
  unfold TimelineManager.update_timeline_duration
  split
  · next h =>
    rw [List.isEmpty_iff] at h
    simp [h]
  · rfl

/-- C2 counterexample: on four cuts the code returns `[0, 3, 2, 1]`, not the
alternating-ends permutation `[0, 3, 1, 2]` stated by the spec (nor the
`[0, 2, 1, 3]` expected by the repository's own test suite). -/
theorem create_zigzag_sequence_four_ne_spec :
    create_zigzag_sequence 4 ≠ [0, 3, 1, 2] := by decide

/-- C2 amended: the zigzag function returns the empty sequence for `n = 0` and
`[0]` for `n = 1` as claimed, but its reverse-index formulation yields
`[0, 3, 2, 1]` for `n = 4` and `[0, 4, 2, 1, 3]` for `n = 5`, not the spec's
alternating-ends values. -/
theorem create_zigzag_sequence_values :
    create_zigzag_sequence 0 = [] ∧ create_zigzag_sequence 1 = [0] ∧
      create_zigzag_sequence 4 = [0, 3, 2, 1] ∧
      create_zigzag_sequence 5 = [0, 4, 2, 1, 3] := by decide

/-- C3 counterexample: from the initial timeline, two successful `add_cut`
calls with the same time range leave two distinct enabled cuts that temporally
overlap, so successful mutation does not preserve the section-3 non-overlap
invariant. -/
theorem add_cut_overlap_counterexample :
    ((TimelineManager.init.add_cut 0 5 (-1)).2.isSome ∧
        (((TimelineManager.init.add_cut 0 5 (-1)).1.add_cut 0 5 (-1)).2.isSome)) ∧
      ∃ a ∈ (((TimelineManager.init.add_cut 0 5 (-1)).1.add_cut 0 5 (-1)).1).cuts,
        ∃ b ∈ (((TimelineManager.init.add_cut 0 5 (-1)).1.add_cut 0 5 (-1)).1).cuts,
          a ≠ b ∧ a.enabled = true ∧ b.enabled = true ∧
            a.start_time < b.end_time ∧ a.end_time > b.start_time := by
  norm_num [TimelineManager.add_cut, TimelineManager.init, TimelineCut.make,
    TimelineManager.update_timeline_duration]

/-- C3 amended: `add_cut` validates only the duration bounds, so a successful
`add_cut` preserves the duration-bound invariant (the new cut's duration lies
in `[min_cut_duration, max_cut_duration]` and existing in-bounds cuts stay in
bounds), but it checks neither temporal overlap nor `cut_id` freshness, so the
non-overlap and id-uniqueness invariants are not preserved. -/
theorem add_cut_preserves_duration_bounds (tm : TimelineManager)
    (hb : ∀ c ∈ tm.cuts,
      tm.min_cut_duration ≤ c.duration ∧ c.duration ≤ tm.max_cut_duration)
    (s e : ℚ) (sid : Int) (tm' : TimelineManager) (c : TimelineCut)
    (h : tm.add_cut s e sid = (tm', some c)) :
    ∀ c' ∈ tm'.cuts,
      tm'.min_cut_duration ≤ c'.duration ∧ c'.duration ≤ tm'.max_cut_duration := by
  simp only [TimelineManager.add_cut] at h
  split at h
  · simp at h
  · split at h
    · simp at h
    · next h1 h2 =>
      rw [Prod.mk.injEq] at h
      obtain ⟨htm, _⟩ := h
      subst htm
      have hcuts : ∀ c' ∈ tm.cuts ++ [TimelineCut.make (tm.cuts.length : Int) s e sid],
          tm.min_cut_duration ≤ c'.duration ∧ c'.duration ≤ tm.max_cut_duration := by
        intro x hx
        rcases List.mem_append.mp hx with hx | hx
        · exact hb x hx
        · simp only [List.mem_singleton] at hx
          subst hx
          simp only [TimelineCut.make]
          constructor
          · linarith [not_lt.mp h1]
          · linarith [not_lt.mp h2]
      intro c' hc'
      by_cases hsid : 0 ≤ sid ∧ sid < (tm.scenes.length : Int)
      · simp only [if_pos hsid, update_timeline_duration_cuts,
          update_timeline_duration_minCut, update_timeline_duration_maxCut] at hc' ⊢
        exact hcuts c' hc'
      · simp only [if_neg hsid, update_timeline_duration_cuts,
          update_timeline_duration_minCut, update_timeline_duration_maxCut] at hc' ⊢
        exact hcuts c' hc'

/-- Concrete instantiation of the amended C3 theorem: after one successful
`add_cut` on the empty initial timeline, the added cut's duration lies within
the duration bounds of the resulting state. -/
theorem add_cut_preserves_duration_bounds_witness :
    ((TimelineManager.init.add_cut 0 5 (-1)).1).min_cut_duration
        ≤ (TimelineCut.make 0 0 5 (-1)).duration ∧
      (TimelineCut.make 0 0 5 (-1)).duration
        ≤ ((TimelineManager.init.add_cut 0 5 (-1)).1).max_cut_duration :=
  add_cut_preserves_duration_bounds TimelineManager.init (by simp [TimelineManager.init])
    0 5 (-1) _ (TimelineCut.make 0 0 5 (-1))
    (by norm_num [TimelineManager.add_cut, TimelineManager.init, TimelineCut.make,
      TimelineManager.update_timeline_duration])
    (TimelineCut.make 0 0 5 (-1))
    (by norm_num [TimelineManager.add_cut, TimelineManager.init, TimelineCut.make,
      TimelineManager.update_timeline_duration])


lemma overlapWith_eq_nil (i : Nat) (c : TimelineCut) :
    ∀ (l : List TimelineCut) (j : Nat),
      overlapWith i c l j = [] ↔
        ∀ c2 ∈ l, ¬(c.start_time < c2.end_time ∧ c.end_time > c2.start_time) := by
  intro l
  induction l with
  | nil => intro j; simp [overlapWith]
  | cons c2 t ih =>
    intro j
    simp only [overlapWith, List.append_eq_nil, List.mem_cons, ih]
    constructor
    · rintro ⟨h1, h2⟩ x hx
      rcases hx with rfl | hx
      · intro hov
        rw [if_pos hov] at h1
        exact List.cons_ne_nil _ _ h1
      · exact h2 x hx
    · intro hall
      refine ⟨?_, fun x hx => hall x (Or.inr hx)⟩
      rw [if_neg (hall c2 (Or.inl rfl))]

lemma overlapScan_eq_nil :
    ∀ (l : List TimelineCut) (i : Nat),
      overlapScan l i = [] ↔
        l.Pairwise (fun a b => ¬(a.start_time < b.end_time ∧ a.end_time > b.start_time)) := by
  intro l
  induction l with
  | nil => intro i; simp [overlapScan]
  | cons c t ih =>
    intro i
    simp only [overlapScan, List.append_eq_nil, List.pairwise_cons,
      overlapWith_eq_nil, ih]

lemma durationIssues_eq_nil (mn mx : ℚ) :
    ∀ (l : List TimelineCut) (i : Nat),
      durationIssues mn mx l i = [] ↔
        ∀ c ∈ l, mn ≤ c.duration ∧ c.duration ≤ mx := by
  intro l
  induction l with
  | nil => intro i; simp [durationIssues]
  | cons c t ih =>
    intro i
    simp only [durationIssues, List.append_eq_nil, List.mem_cons, ih]
    constructor
    · rintro ⟨⟨h1, h2⟩, h3⟩ x hx
      rcases hx with rfl | hx
      · constructor
        · by_contra hc
          rw [if_pos (not_le.mp hc)] at h1
          exact List.cons_ne_nil _ _ h1
        · by_contra hc
          rw [if_pos (not_le.mp hc)] at h2
          exact List.cons_ne_nil _ _ h2
      · exact h3 x hx
    · intro hall
      have hc := hall c (Or.inl rfl)
      refine ⟨⟨?_, ?_⟩, fun x hx => hall x (Or.inr hx)⟩
      · rw [if_neg (not_lt.mpr hc.1)]
      · rw [if_neg (not_lt.mpr hc.2)]

lemma sceneIssues_eq_nil (mn : ℚ) :
    ∀ (l : List TimelineScene) (i : Nat),
      sceneIssues mn l i = [] ↔ ∀ s ∈ l, mn ≤ s.duration := by
  intro l
  induction l with
  | nil => intro i; simp [sceneIssues]
  | cons s t ih =>
    intro i
    simp only [sceneIssues, List.append_eq_nil, List.mem_cons, ih]
    constructor
    · rintro ⟨h1, h2⟩ x hx
      rcases hx with rfl | hx
      · by_contra hc
        rw [if_pos (not_le.mp hc)] at h1
        exact List.cons_ne_nil _ _ h1
      · exact h2 x hx
    · intro hall
      refine ⟨?_, fun x hx => hall x (Or.inr hx)⟩
      rw [if_neg (not_lt.mpr (hall s (Or.inl rfl)))]

/-- C4 amended: `validate_timeline` returns the empty list if and only if no
two cuts — enabled or not — temporally overlap, every cut's duration lies
within the bounds and every scene meets the minimum duration. The Python scan
ignores the `enabled` flag, so "no two enabled cuts overlap" is not the
right-hand side; it is non-mutating and collects every violation by
construction. -/
theorem validate_timeline_eq_nil_iff (tm : TimelineManager) :
    tm.validate_timeline = [] ↔
      (tm.cuts.Pairwise
          (fun a b => ¬(a.start_time < b.end_time ∧ a.end_time > b.start_time)) ∧
        (∀ c ∈ tm.cuts,
          tm.min_cut_duration ≤ c.duration ∧ c.duration ≤ tm.max_cut_duration) ∧
        ∀ s ∈ tm.scenes, tm.min_scene_duration ≤ s.duration) := by
  unfold TimelineManager.validate_timeline
  simp only [List.append_eq_nil, overlapScan_eq_nil, durationIssues_eq_nil,
    sceneIssues_eq_nil, and_assoc]

/-- Timeline state holding two cuts over the same time range of which only the
second is enabled; reachable by loading a record whose first cut has
`enabled: false`. -/
def overlapDisabledTM : TimelineManager :=
  { cuts := [{ cut_id := 0, start_time := 0, end_time := 5, duration := 5, scene_id := -1,
               order_index := 0, selected := false, enabled := false, effects := [] },
             { cut_id := 1, start_time := 0, end_time := 5, duration := 5, scene_id := -1,
               order_index := 1, selected := false, enabled := true, effects := [] }]
    scenes := []
    timeline_duration := 10
    min_cut_duration := 3
    max_cut_duration := 7
    min_scene_duration := 3 }

/-- C4 counterexample: on a timeline with two overlapping cuts of which only
one is enabled, `validate_timeline` is non-empty although no two enabled cuts
overlap and all duration bounds hold, so the claimed equivalence fails. -/
theorem validate_timeline_not_iff_enabled :
    ¬(overlapDisabledTM.validate_timeline = [] ↔
      (overlapDisabledTM.cuts.Pairwise
          (fun a b => a.enabled = true → b.enabled = true →
            ¬(a.start_time < b.end_time ∧ a.end_time > b.start_time)) ∧
        (∀ c ∈ overlapDisabledTM.cuts,
          overlapDisabledTM.min_cut_duration ≤ c.duration ∧
            c.duration ≤ overlapDisabledTM.max_cut_duration) ∧
        ∀ s ∈ overlapDisabledTM.scenes,
          overlapDisabledTM.min_scene_duration ≤ s.duration)) := by
  intro h
  have hrhs : overlapDisabledTM.cuts.Pairwise
        (fun a b => a.enabled = true → b.enabled = true →
          ¬(a.start_time < b.end_time ∧ a.end_time > b.start_time)) ∧
      (∀ c ∈ overlapDisabledTM.cuts,
        overlapDisabledTM.min_cut_duration ≤ c.duration ∧
          c.duration ≤ overlapDisabledTM.max_cut_duration) ∧
      ∀ s ∈ overlapDisabledTM.scenes,
        overlapDisabledTM.min_scene_duration ≤ s.duration := by
    refine ⟨?_, ?_, ?_⟩
    · norm_num [overlapDisabledTM, List.pairwise_cons]
    · norm_num [overlapDisabledTM]
    · norm_num [overlapDisabledTM]
  have hempty := h.mpr hrhs
  norm_num [TimelineManager.validate_timeline, overlapDisabledTM, overlapScan,
    overlapWith, durationIssues, sceneIssues] at hempty

/-- Sum of the durations of the enabled cuts only — the quantity the spec says
`timeline_duration` always equals. -/
def enabledDurationSum (cuts : List TimelineCut) : ℚ :=
  ((cuts.filter (fun c => c.enabled)).map (fun c => c.duration)).sum

/-- Persisted record holding a single disabled cut of duration 5; loading it is
a structural mutation that leaves a disabled cut in the timeline. -/
def disabledCutRecord : TimelineData :=
  { cuts := some [{ cut_id := some 0, start := some 0, end_ := some 5,
                    duration := some 5, scene_id := some (-1), order_index := some 0,
                    selected := some false, enabled := some false, effects := some [] }]
    scenes := some []
    settings := none }

/-- C5 counterexample: after loading a record with one disabled cut of
duration 5 — a structural mutation — `timeline_duration` is 5 while the summed
duration of the enabled cuts is 0: the derived field counts disabled cuts. -/
theorem timeline_duration_counts_disabled :
    (TimelineManager.init.load_timeline (.parsed disabledCutRecord)).2 = true ∧
      (TimelineManager.init.load_timeline (.parsed disabledCutRecord)).1.timeline_duration ≠
        enabledDurationSum
          (TimelineManager.init.load_timeline (.parsed disabledCutRecord)).1.cuts := by
  constructor
  · norm_num [TimelineManager.load_timeline, disabledCutRecord, TimelineManager.init,
      parseAll, TimelineCut.from_dict, TimelineCut.make,
      TimelineManager.update_timeline_duration]
  · norm_num [TimelineManager.load_timeline, disabledCutRecord, TimelineManager.init,
      parseAll, TimelineCut.from_dict, TimelineCut.make,
      TimelineManager.update_timeline_duration, enabledDurationSum]

lemma update_timeline_duration_durOK (tm : TimelineManager) :
    tm.update_timeline_duration.timeline_duration
      = (tm.update_timeline_duration.cuts.map (fun c => c.duration)).sum := by
  rw [update_timeline_duration_sum, update_timeline_duration_cuts]

/-- C5 amended: after every successful structural mutation — `add_cut`,
`remove_cut`, `generate_cuts_from_scenes`, `clear_timeline`, `load_timeline` —
the derived `timeline_duration` equals the summed duration of ALL cuts,
enabled or not: `update_timeline_duration` never filters on the `enabled`
flag, so disabled cuts contribute their full duration. -/
theorem timeline_duration_after_mutations (tm : TimelineManager) :
    (∀ s e sid tm' c, tm.add_cut s e sid = (tm', some c) →
        tm'.timeline_duration = (tm'.cuts.map (fun c => c.duration)).sum) ∧
      (∀ cid tm', tm.remove_cut cid = (tm', true) →
        tm'.timeline_duration = (tm'.cuts.map (fun c => c.duration)).sum) ∧
      (∀ rnd, ((tm.generate_cuts_from_scenes rnd).1).timeline_duration
        = (((tm.generate_cuts_from_scenes rnd).1).cuts.map (fun c => c.duration)).sum) ∧
      (tm.clear_timeline.timeline_duration
        = (tm.clear_timeline.cuts.map (fun c => c.duration)).sum) ∧
      (∀ f tm', tm.load_timeline f = (tm', true) →
        tm'.timeline_duration = (tm'.cuts.map (fun c => c.duration)).sum) := by
  refine ⟨?_, ?_, ?_, ?_, ?_⟩
  · intro s e sid tm' c h
    simp only [TimelineManager.add_cut] at h
    split at h
    · simp at h
    · split at h
      · simp at h
      · rw [Prod.mk.injEq] at h
        obtain ⟨htm, _⟩ := h
        subst htm
        exact update_timeline_duration_durOK _
  · intro cid tm' h
    simp only [TimelineManager.remove_cut] at h
    split at h
    · simp at h
    · rw [Prod.mk.injEq] at h
      obtain ⟨htm, _⟩ := h
      subst htm
      exact update_timeline_duration_durOK _
  · intro rnd
    simp only [TimelineManager.generate_cuts_from_scenes]
    exact update_timeline_duration_durOK _
  · simp [TimelineManager.clear_timeline]
  · intro f tm' h
    simp only [TimelineManager.load_timeline] at h
    split at h
    · simp at h
    · simp at h
    · split at h
      · simp at h
      · split at h
        · simp at h
        · split at h
          · simp at h
          · rw [Prod.mk.injEq] at h
            obtain ⟨htm, _⟩ := h
            subst htm
            exact update_timeline_duration_durOK _

/-- Concrete instantiation of the amended C5 theorem: a successful `add_cut`, a
successful `remove_cut` and a successful `load_timeline` each leave
`timeline_duration` equal to the summed duration of all cuts. -/
theorem timeline_duration_after_mutations_witness :
    ((TimelineManager.init.add_cut 0 5 (-1)).1.timeline_duration
        = (((TimelineManager.init.add_cut 0 5 (-1)).1).cuts.map (fun c => c.duration)).sum) ∧
      (((TimelineManager.init.add_cut 0 5 (-1)).1.remove_cut 0).1.timeline_duration
        = ((((TimelineManager.init.add_cut 0 5 (-1)).1.remove_cut 0).1).cuts.map
            (fun c => c.duration)).sum) ∧
      ((TimelineManager.init.load_timeline (.parsed disabledCutRecord)).1.timeline_duration
        = (((TimelineManager.init.load_timeline (.parsed disabledCutRecord)).1).cuts.map
            (fun c => c.duration)).sum) := by
  refine ⟨?_, ?_, ?_⟩
  · exact (timeline_duration_after_mutations TimelineManager.init).1 0 5 (-1) _
      (TimelineCut.make 0 0 5 (-1))
      (by norm_num [TimelineManager.add_cut, TimelineManager.init, TimelineCut.make,
        TimelineManager.update_timeline_duration])
  · refine (timeline_duration_after_mutations
        ((TimelineManager.init.add_cut 0 5 (-1)).1)).2.1 0 _ ?_
    norm_num [TimelineManager.add_cut, TimelineManager.init, TimelineCut.make,
      TimelineManager.update_timeline_duration, TimelineManager.remove_cut, findCut,
      List.eraseIdx]
  · refine (timeline_duration_after_mutations
        TimelineManager.init).2.2.2.2 (.parsed disabledCutRecord) _ ?_
    norm_num [TimelineManager.load_timeline, disabledCutRecord, TimelineManager.init,
      parseAll, TimelineCut.from_dict, TimelineCut.make,
      TimelineManager.update_timeline_duration]

/-- Persisted record whose cut list parses but whose scene list contains a
record missing the required `scene_id` key. -/
def partialBadRecord : TimelineData :=
  { cuts := some [{ cut_id := some 0, start := some 0, end_ := some 5,
                    duration := some 5, scene_id := some (-1), order_index := some 0,
                    selected := some false, enabled := some true, effects := some [] }]
    scenes := some [{ scene_id := none, start := some 0, end_ := some 10,
                      duration := some 10, cuts := some [], selected := some false,
                      color := some "#6b46c1" }]
    settings := none }

/-- C6 counterexample: loading a record whose cuts parse but whose scene list
is malformed fails (`load` returns `false`), yet the in-memory cut list has
already been replaced — the load is not atomic. -/
theorem load_timeline_not_atomic :
    (TimelineManager.init.load_timeline (.parsed partialBadRecord)).2 = false ∧
      (TimelineManager.init.load_timeline (.parsed partialBadRecord)).1 ≠
        TimelineManager.init := by
  constructor
  · norm_num [TimelineManager.load_timeline, partialBadRecord, TimelineManager.init,
      parseAll, TimelineCut.from_dict, TimelineScene.from_dict, TimelineCut.make]
  · norm_num [TimelineManager.load_timeline, partialBadRecord, TimelineManager.init,
      parseAll, TimelineCut.from_dict, TimelineScene.from_dict, TimelineCut.make]

/-- C6 amended: a failing `load_timeline` never changes the three settings or
the stored `timeline_duration`, and the whole state is unchanged when the file
is missing, unparseable, or already its cut records fail to parse. The scene
list is still unchanged when the failure is a malformed scene record, but the
cut list has by then been replaced; and when cuts and scenes both parse while
the record's `settings` entry holds a non-dict value, both collections have
already been replaced before the failure — the load is not atomic. -/
theorem load_timeline_failure_effect (tm : TimelineManager) (f : LoadFile)
    (tm' : TimelineManager) (h : tm.load_timeline f = (tm', false)) :
    tm'.min_cut_duration = tm.min_cut_duration ∧
      tm'.max_cut_duration = tm.max_cut_duration ∧
      tm'.min_scene_duration = tm.min_scene_duration ∧
      tm'.timeline_duration = tm.timeline_duration ∧
      ((f = .missing ∨ f = .corrupt) → tm' = tm) ∧
      (∀ data, f = .parsed data →
        parseAll TimelineCut.from_dict (data.cuts.getD []) = none → tm' = tm) ∧
      (∀ data, f = .parsed data →
        parseAll TimelineScene.from_dict (data.scenes.getD []) = none →
          tm'.scenes = tm.scenes) ∧
      (∀ data newCuts newScenes, f = .parsed data →
        parseAll TimelineCut.from_dict (data.cuts.getD []) = some newCuts →
        parseAll TimelineScene.from_dict (data.scenes.getD []) = some newScenes →
          tm'.cuts = newCuts ∧ tm'.scenes = newScenes ∧
            data.settings = some .notDict) := by
  simp only [TimelineManager.load_timeline] at h
  split at h
  · rw [Prod.mk.injEq] at h
    obtain ⟨htm, _⟩ := h
    subst htm
    refine ⟨rfl, rfl, rfl, rfl, fun _ => rfl, ?_, ?_, ?_⟩
    · intro data hf; cases hf
    · intro data hf; cases hf
    · intro data nc ns hf; cases hf
  · rw [Prod.mk.injEq] at h
    obtain ⟨htm, _⟩ := h
    subst htm
    refine ⟨rfl, rfl, rfl, rfl, fun _ => rfl, ?_, ?_, ?_⟩
    · intro data hf; cases hf
    · intro data hf; cases hf
    · intro data nc ns hf; cases hf
  · next data =>
    split at h
    · next hcuts =>
      rw [Prod.mk.injEq] at h
      obtain ⟨htm, _⟩ := h
      subst htm
      refine ⟨rfl, rfl, rfl, rfl, ?_, ?_, ?_, ?_⟩
      · rintro (hf | hf) <;> cases hf
      · intro data' hf
        cases hf
        intro _
        rfl
      · intro data' hf
        cases hf
        intro _
        rfl
      · intro data' nc ns hf
        cases hf
        intro hc _
        rw [hcuts] at hc
        cases hc
    · next newCuts hcuts =>
      split at h
      · next hscenes =>
        rw [Prod.mk.injEq] at h
        obtain ⟨htm, _⟩ := h
        subst htm
        refine ⟨rfl, rfl, rfl, rfl, ?_, ?_, ?_, ?_⟩
        · rintro (hf | hf) <;> cases hf
        · intro data' hf
          cases hf
          intro hnone
          rw [hcuts] at hnone
          cases hnone
        · intro data' hf
          cases hf
          intro _
          rfl
        · intro data' nc ns hf
          cases hf
          intro _ hs
          rw [hscenes] at hs
          cases hs
      · next newScenes hscenes =>
        split at h
        · next hset =>
          rw [Prod.mk.injEq] at h
          obtain ⟨htm, _⟩ := h
          subst htm
          refine ⟨rfl, rfl, rfl, rfl, ?_, ?_, ?_, ?_⟩
          · rintro (hf | hf) <;> cases hf
          · intro data' hf
            cases hf
            intro hnone
            rw [hcuts] at hnone
            cases hnone
          · intro data' hf
            cases hf
            intro hnone
            rw [hscenes] at hnone
            cases hnone
          · intro data' nc ns hf
            cases hf
            intro hc hs
            rw [hcuts] at hc
            rw [hscenes] at hs
            cases hc
            cases hs
            refine ⟨rfl, rfl, ?_⟩
            cases hsv : data.settings with
            | none => rw [hsv, Option.getD_none] at hset; cases hset
            | some v =>
              rw [hsv, Option.getD_some] at hset
              rw [hset]
        · simp at h

/-- Persisted record whose cut and scene lists both parse but whose `settings`
key holds a non-dict JSON value (e.g. `null`). -/
def badSettingsRecord : TimelineData :=
  { cuts := some [{ cut_id := some 0, start := some 0, end_ := some 5,
                    duration := some 5, scene_id := some (-1), order_index := some 0,
                    selected := some false, enabled := some true, effects := some [] }]
    scenes := some [{ scene_id := some 0, start := some 0, end_ := some 10,
                      duration := some 10, cuts := some [], selected := some false,
                      color := some "#6b46c1" }]
    settings := some .notDict }

/-- Concrete instantiation of the amended C6 theorem: the failing load of the
malformed-scene record leaves the settings, the stored duration and the scene
list of the initial timeline unchanged, while the failing load of the
non-dict-settings record has already replaced both collections. -/
theorem load_timeline_failure_effect_witness :
    (TimelineManager.init.load_timeline (.parsed partialBadRecord)).1.min_cut_duration
        = TimelineManager.init.min_cut_duration ∧
      (TimelineManager.init.load_timeline (.parsed partialBadRecord)).1.max_cut_duration
        = TimelineManager.init.max_cut_duration ∧
      (TimelineManager.init.load_timeline (.parsed partialBadRecord)).1.min_scene_duration
        = TimelineManager.init.min_scene_duration ∧
      (TimelineManager.init.load_timeline (.parsed partialBadRecord)).1.timeline_duration
        = TimelineManager.init.timeline_duration ∧
      (TimelineManager.init.load_timeline (.parsed partialBadRecord)).1.scenes
        = TimelineManager.init.scenes ∧
      (TimelineManager.init.load_timeline (.parsed badSettingsRecord)).1.cuts
        = [TimelineCut.make 0 0 5 (-1)] ∧
      (TimelineManager.init.load_timeline (.parsed badSettingsRecord)).1.scenes
        = [TimelineScene.make 0 0 10] ∧
      badSettingsRecord.settings = some .notDict := by
  have h1 := load_timeline_failure_effect TimelineManager.init (.parsed partialBadRecord)
    ((TimelineManager.init.load_timeline (.parsed partialBadRecord)).1)
    (by norm_num [TimelineManager.load_timeline, partialBadRecord, TimelineManager.init,
      parseAll, TimelineCut.from_dict, TimelineScene.from_dict, TimelineCut.make])
  have h2 := load_timeline_failure_effect TimelineManager.init (.parsed badSettingsRecord)
    ((TimelineManager.init.load_timeline (.parsed badSettingsRecord)).1)
    (by norm_num [TimelineManager.load_timeline, badSettingsRecord, TimelineManager.init,
      parseAll, TimelineCut.from_dict, TimelineScene.from_dict, TimelineCut.make,
      TimelineScene.make])
  obtain ⟨hc, hs, hsv⟩ := h2.2.2.2.2.2.2.2 badSettingsRecord
    [TimelineCut.make 0 0 5 (-1)] [TimelineScene.make 0 0 10] rfl
    (by norm_num [badSettingsRecord, parseAll, TimelineCut.from_dict, TimelineCut.make])
    (by norm_num [badSettingsRecord, parseAll, TimelineScene.from_dict, TimelineScene.make])
  exact ⟨h1.1, h1.2.1, h1.2.2.1, h1.2.2.2.1,
    h1.2.2.2.2.2.2.1 partialBadRecord rfl
      (by norm_num [partialBadRecord, parseAll, TimelineScene.from_dict]),
    hc, hs, hsv⟩

lemma cutFromToDict (c : TimelineCut)
    (hd : c.duration = c.end_time - c.start_time)
    (ho : c.order_index = c.cut_id) :
    TimelineCut.from_dict c.to_dict = some c := by
  cases c
  simp_all [TimelineCut.from_dict, TimelineCut.to_dict, TimelineCut.make]

lemma sceneFromToDict (s : TimelineScene)
    (hd : s.duration = s.end_time - s.start_time) :
    TimelineScene.from_dict s.to_dict = some s := by
  cases s
  simp_all [TimelineScene.from_dict, TimelineScene.to_dict, TimelineScene.make]

lemma parseAll_map_some {α β : Type} (f : α → Option β) (g : β → α) (l : List β)
    (h : ∀ x ∈ l, f (g x) = some x) : parseAll f (l.map g) = some l := by
  induction l with
  | nil => rfl
  | cons a t ih =>
    simp only [List.map_cons, parseAll]
    rw [h a (List.mem_cons_self a t), ih (fun x hx => h x (List.mem_cons_of_mem _ hx))]

/-- C7: saving a timeline and loading the saved record into any manager
reproduces the scene and cut collections field for field and restores the
three duration-bound settings, provided the timeline satisfies the data-model
invariants that `duration` is the derived difference `end - start` and
`order_index` equals `cut_id` (both always hold for cuts and scenes the core
constructs; the serializer stores them but the parser recomputes them). -/
theorem save_load_roundtrip (tm tm0 : TimelineManager)
    (hc : ∀ c ∈ tm.cuts, c.duration = c.end_time - c.start_time ∧ c.order_index = c.cut_id)
    (hs : ∀ s ∈ tm.scenes, s.duration = s.end_time - s.start_time) :
    (tm0.load_timeline (.parsed tm.save_timeline)).2 = true ∧
      (tm0.load_timeline (.parsed tm.save_timeline)).1.cuts = tm.cuts ∧
      (tm0.load_timeline (.parsed tm.save_timeline)).1.scenes = tm.scenes ∧
      (tm0.load_timeline (.parsed tm.save_timeline)).1.min_cut_duration
        = tm.min_cut_duration ∧
      (tm0.load_timeline (.parsed tm.save_timeline)).1.max_cut_duration
        = tm.max_cut_duration ∧
      (tm0.load_timeline (.parsed tm.save_timeline)).1.min_scene_duration
        = tm.min_scene_duration := by
  have hcuts : parseAll TimelineCut.from_dict (tm.cuts.map TimelineCut.to_dict)
      = some tm.cuts :=
    parseAll_map_some _ _ _ (fun c hcm => cutFromToDict c (hc c hcm).1 (hc c hcm).2)
  have hscenes : parseAll TimelineScene.from_dict (tm.scenes.map TimelineScene.to_dict)
      = some tm.scenes :=
    parseAll_map_some _ _ _ (fun s hsm => sceneFromToDict s (hs s hsm))
  simp only [TimelineManager.load_timeline, TimelineManager.save_timeline,
    Option.getD_some, hcuts, hscenes, update_timeline_duration_cuts,
    update_timeline_duration_scenes, update_timeline_duration_minCut,
    update_timeline_duration_maxCut, update_timeline_duration_minScene]
  exact ⟨trivial, trivial, trivial, trivial, trivial, trivial⟩

/-- Populated timeline used to instantiate the round-trip theorem. -/
def roundtripTM : TimelineManager :=
  { cuts := [{ cut_id := 0, start_time := 1, end_time := 5, duration := 4, scene_id := 0,
               order_index := 0, selected := true, enabled := false, effects := ["blur"] }]
    scenes := [{ scene_id := 0, start_time := 0, end_time := 10, duration := 10,
                 cuts := [0], selected := false, color := "#112233" }]
    timeline_duration := 4
    min_cut_duration := 2
    max_cut_duration := 6
    min_scene_duration := 3 }

/-- Concrete instantiation of the round-trip theorem on a populated timeline
with non-default settings, a disabled selected cut carrying an effect, and a
scene owning the cut. -/
theorem save_load_roundtrip_witness :
    (TimelineManager.init.load_timeline (.parsed roundtripTM.save_timeline)).2 = true ∧
      (TimelineManager.init.load_timeline (.parsed roundtripTM.save_timeline)).1.cuts
        = roundtripTM.cuts ∧
      (TimelineManager.init.load_timeline (.parsed roundtripTM.save_timeline)).1.scenes
        = roundtripTM.scenes ∧
      (TimelineManager.init.load_timeline (.parsed roundtripTM.save_timeline)).1.min_cut_duration
        = roundtripTM.min_cut_duration ∧
      (TimelineManager.init.load_timeline (.parsed roundtripTM.save_timeline)).1.max_cut_duration
        = roundtripTM.max_cut_duration ∧
      (TimelineManager.init.load_timeline (.parsed roundtripTM.save_timeline)).1.min_scene_duration
        = roundtripTM.min_scene_duration :=
  save_load_roundtrip roundtripTM TimelineManager.init
    (by norm_num [roundtripTM]) (by norm_num [roundtripTM])

lemma fairUseLoop_spec (minD maxD : ℚ) (rnd : Nat → ℚ × ℚ) :
    ∀ (l : List (ℚ × ℚ)) (idx k : Nat), AdmissibleFrom minD maxD rnd l k →
      (fairUseLoop minD maxD rnd l idx k).length
          = (l.filter (fun p => decide (minD ≤ p.2 - p.1))).length ∧
        (∀ j (hj : j < (fairUseLoop minD maxD rnd l idx k).length),
          ((fairUseLoop minD maxD rnd l idx k).get ⟨j, hj⟩).cut_id = k + j) ∧
        (∀ c ∈ fairUseLoop minD maxD rnd l idx k, idx ≤ c.scene_id) ∧
        (∀ c ∈ fairUseLoop minD maxD rnd l idx k,
          ∃ j, ∃ hj : j < l.length, c.scene_id = idx + j ∧
            minD ≤ (l.get ⟨j, hj⟩).2 - (l.get ⟨j, hj⟩).1 ∧
            minD ≤ c.duration ∧
            c.duration ≤ min maxD ((l.get ⟨j, hj⟩).2 - (l.get ⟨j, hj⟩).1) ∧
            (l.get ⟨j, hj⟩).1 ≤ c.start ∧ c.end_ ≤ (l.get ⟨j, hj⟩).2 ∧
            c.end_ - c.start = c.duration) ∧
        (fairUseLoop minD maxD rnd l idx k).Pairwise
          (fun a b => a.scene_id < b.scene_id) := by
  intro l
  induction l with
  | nil =>
    intro idx k _
    simp [fairUseLoop]
  | cons p rest ih =>
    intro idx k hadm
    obtain ⟨s, e⟩ := p
    by_cases hel : e - s < minD
    · have hadm' : AdmissibleFrom minD maxD rnd rest k := by
        simpa [AdmissibleFrom, if_pos hel] using hadm
      obtain ⟨ihlen, ihid, ihidx, ihpar, ihpw⟩ := ih (idx + 1) k hadm'
      have hloop : fairUseLoop minD maxD rnd ((s, e) :: rest) idx k
          = fairUseLoop minD maxD rnd rest (idx + 1) k := by
        simp [fairUseLoop, if_pos hel]
      rw [hloop]
      have hfil : ((s, e) :: rest).filter (fun p => decide (minD ≤ p.2 - p.1))
          = rest.filter (fun p => decide (minD ≤ p.2 - p.1)) := by
        simp [List.filter_cons, not_le.mpr hel]
      rw [hfil]
      refine ⟨ihlen, ihid, ?_, ?_, ihpw⟩
      · intro c hc
        exact Nat.le_of_succ_le (ihidx c hc)
      · intro c hc
        obtain ⟨j, hj, hsc, hrest⟩ := ihpar c hc
        exact ⟨j + 1, Nat.succ_lt_succ hj, by omega, hrest⟩
    · have hcond : ¬ (e - s < minD) := hel
      have hadm2 : (minD ≤ (rnd k).1 ∧ (rnd k).1 ≤ min maxD (e - s) ∧
            s ≤ (rnd k).2 ∧ (rnd k).2 ≤ e - (rnd k).1) ∧
          AdmissibleFrom minD maxD rnd rest (k + 1) := by
        simpa [AdmissibleFrom, if_neg hcond] using hadm
      obtain ⟨hdr, hadm'⟩ := hadm2
      obtain ⟨ihlen, ihid, ihidx, ihpar, ihpw⟩ := ih (idx + 1) (k + 1) hadm'
      have hloop : fairUseLoop minD maxD rnd ((s, e) :: rest) idx k
          = { scene_id := idx, start := (rnd k).2, end_ := (rnd k).2 + (rnd k).1,
              duration := (rnd k).1, cut_id := k }
            :: fairUseLoop minD maxD rnd rest (idx + 1) (k + 1) := by
        simp [fairUseLoop, if_neg hcond]
      rw [hloop]
      have hfil : ((s, e) :: rest).filter (fun p => decide (minD ≤ p.2 - p.1))
          = (s, e) :: rest.filter (fun p => decide (minD ≤ p.2 - p.1)) := by
        simp [List.filter_cons, not_lt.mp hcond]
      rw [hfil]
      refine ⟨?_, ?_, ?_, ?_, ?_⟩
      · simp [ihlen]
      · intro j hj
        match j with
        | 0 => simp
        | j' + 1 =>
          have hj' : j' < (fairUseLoop minD maxD rnd rest (idx + 1) (k + 1)).length := by
            simpa [Nat.succ_lt_succ_iff] using hj
          have := ihid j' hj'
          simp only [List.get_cons_succ]
          omega
      · intro c hc
        rcases List.mem_cons.mp hc with rfl | hc'
        · exact Nat.le_refl idx
        · exact Nat.le_of_succ_le (ihidx c hc')
      · intro c hc
        rcases List.mem_cons.mp hc with rfl | hc'
        · refine ⟨0, Nat.succ_pos _, by simp, ?_, ?_, ?_, ?_, ?_, ?_⟩
          · simpa using not_lt.mp hcond
          · simpa using hdr.1
          · simpa using hdr.2.1
          · simpa using hdr.2.2.1
          · simp only [List.get]
            linarith [hdr.2.2.2]
          · ring
        · obtain ⟨j, hj, hsc, hrest⟩ := ihpar c hc'
          exact ⟨j + 1, Nat.succ_lt_succ hj, by omega, hrest⟩
      · refine List.pairwise_cons.mpr ⟨?_, ihpw⟩
        intro b hb
        exact Nat.lt_of_succ_le (ihidx b hb)

/-- C8: under admissible random draws, `generate_fair_use_cuts` emits exactly
one cut per scene of duration at least `min_duration` (shorter scenes produce
none), each emitted cut's duration lies in
`[min_duration, min(max_duration, scene_duration)]`, its time range is fully
contained within its parent scene, its `cut_id` is its 0-based position in the
output (not the scene index), and parent scene indices are strictly
increasing, so distinct cuts come from distinct eligible scenes. -/
theorem generate_fair_use_cuts_spec (scenes : List (ℚ × ℚ)) (minD maxD : ℚ)
    (rnd : Nat → ℚ × ℚ) (h : AdmissibleFrom minD maxD rnd scenes 0) :
    (generate_fair_use_cuts scenes minD maxD rnd).length
        = (scenes.filter (fun p => decide (minD ≤ p.2 - p.1))).length ∧
      (∀ j (hj : j < (generate_fair_use_cuts scenes minD maxD rnd).length),
        ((generate_fair_use_cuts scenes minD maxD rnd).get ⟨j, hj⟩).cut_id = j) ∧
      (∀ c ∈ generate_fair_use_cuts scenes minD maxD rnd,
        ∃ hj : c.scene_id < scenes.length,
          minD ≤ (scenes.get ⟨c.scene_id, hj⟩).2 - (scenes.get ⟨c.scene_id, hj⟩).1 ∧
          minD ≤ c.duration ∧
          c.duration ≤ min maxD
            ((scenes.get ⟨c.scene_id, hj⟩).2 - (scenes.get ⟨c.scene_id, hj⟩).1) ∧
          (scenes.get ⟨c.scene_id, hj⟩).1 ≤ c.start ∧
          c.end_ ≤ (scenes.get ⟨c.scene_id, hj⟩).2 ∧
          c.end_ - c.start = c.duration) ∧
      (generate_fair_use_cuts scenes minD maxD rnd).Pairwise
        (fun a b => a.scene_id < b.scene_id) := by
  obtain ⟨hlen, hid, _, hpar, hpw⟩ := fairUseLoop_spec minD maxD rnd scenes 0 0 h
  refine ⟨hlen, ?_, ?_, hpw⟩
  · intro j hj
    simpa using hid j hj
  · intro c hc
    obtain ⟨j, hj, hsc, hrest⟩ := hpar c hc
    have hsc' : c.scene_id = j := by omega
    subst hsc'
    exact ⟨hj, hrest⟩

/-- Three scenes of which the middle one (2 seconds) is shorter than the
minimum cut duration 3. -/
def wScenes : List (ℚ × ℚ) := [(0, 10), (10, 12), (12, 20)]

/-- Concrete admissible draws for `wScenes`: the first generated cut takes
duration 4 starting at 1, the second duration 4 starting at 13. -/
def wRnd : Nat → ℚ × ℚ := fun k => if k = 0 then (4, 1) else (4, 13)

/-- Concrete instantiation of the fair-use cut theorem: on `wScenes` with
bounds 3 and 7 and the admissible draws `wRnd`, the conclusion of
`generate_fair_use_cuts_spec` holds. -/
theorem generate_fair_use_cuts_spec_witness :
    AdmissibleFrom 3 7 wRnd wScenes 0 ∧
      ((generate_fair_use_cuts wScenes 3 7 wRnd).length
          = (wScenes.filter (fun p => decide ((3 : ℚ) ≤ p.2 - p.1))).length ∧
        (∀ j (hj : j < (generate_fair_use_cuts wScenes 3 7 wRnd).length),
          ((generate_fair_use_cuts wScenes 3 7 wRnd).get ⟨j, hj⟩).cut_id = j) ∧
        (∀ c ∈ generate_fair_use_cuts wScenes 3 7 wRnd,
          ∃ hj : c.scene_id < wScenes.length,
            (3 : ℚ) ≤ (wScenes.get ⟨c.scene_id, hj⟩).2 - (wScenes.get ⟨c.scene_id, hj⟩).1 ∧
            (3 : ℚ) ≤ c.duration ∧
            c.duration ≤ min 7
              ((wScenes.get ⟨c.scene_id, hj⟩).2 - (wScenes.get ⟨c.scene_id, hj⟩).1) ∧
            (wScenes.get ⟨c.scene_id, hj⟩).1 ≤ c.start ∧
            c.end_ ≤ (wScenes.get ⟨c.scene_id, hj⟩).2 ∧
            c.end_ - c.start = c.duration) ∧
        (generate_fair_use_cuts wScenes 3 7 wRnd).Pairwise
          (fun a b => a.scene_id < b.scene_id)) :=
  ⟨by norm_num [AdmissibleFrom, wScenes, wRnd],
    generate_fair_use_cuts_spec wScenes 3 7 wRnd
      (by norm_num [AdmissibleFrom, wScenes, wRnd])⟩

lemma genCutsLoop_scenes (minD maxD : ℚ) (rnd : Nat → ℚ × ℚ) :
    ∀ (l : List TimelineScene) (k : Nat),
      ((genCutsLoop minD maxD rnd l k).1).length = l.length ∧
        ∀ i (hi : i < l.length) (hi' : i < ((genCutsLoop minD maxD rnd l k).1).length),
          ∃ app : List Int,
            (((genCutsLoop minD maxD rnd l k).1).get ⟨i, hi'⟩).cuts
                = (l.get ⟨i, hi⟩).cuts ++ app ∧
              ((l.get ⟨i, hi⟩).duration < minD → app = []) ∧
              (minD ≤ (l.get ⟨i, hi⟩).duration → ∃ cid, app = [cid]) := by
  intro l
  induction l with
  | nil =>
    intro k
    refine ⟨rfl, ?_⟩
    intro i hi
    exact absurd hi (Nat.not_lt_zero i)
  | cons sc rest ih =>
    intro k
    by_cases hel : sc.duration < minD
    · have hloop : genCutsLoop minD maxD rnd (sc :: rest) k
          = (sc :: (genCutsLoop minD maxD rnd rest k).1,
             (genCutsLoop minD maxD rnd rest k).2) := by
        simp [genCutsLoop, if_pos hel]
      rw [hloop]
      obtain ⟨ihlen, ihget⟩ := ih k
      refine ⟨by simpa using ihlen, ?_⟩
      intro i hi hi'
      match i with
      | 0 =>
        refine ⟨[], by simp, fun _ => rfl, fun hge => absurd hel (not_lt.mpr hge)⟩
      | i' + 1 =>
        have hi2 : i' < rest.length := by simpa [Nat.succ_lt_succ_iff] using hi
        have hi2' : i' < ((genCutsLoop minD maxD rnd rest k).1).length := by
          simpa [Nat.succ_lt_succ_iff] using hi'
        obtain ⟨app, h1, h2, h3⟩ := ihget i' hi2 hi2'
        exact ⟨app, by simpa using h1, by simpa using h2, by simpa using h3⟩
    · have hloop : genCutsLoop minD maxD rnd (sc :: rest) k
          = (sc.add_cut (TimelineCut.make (k : Int) (rnd k).2 ((rnd k).2 + (rnd k).1)
                sc.scene_id)
              :: (genCutsLoop minD maxD rnd rest (k + 1)).1,
             TimelineCut.make (k : Int) (rnd k).2 ((rnd k).2 + (rnd k).1) sc.scene_id
              :: (genCutsLoop minD maxD rnd rest (k + 1)).2) := by
        simp [genCutsLoop, if_neg hel]
      rw [hloop]
      obtain ⟨ihlen, ihget⟩ := ih (k + 1)
      refine ⟨by simpa using ihlen, ?_⟩
      intro i hi hi'
      match i with
      | 0 =>
        refine ⟨[(TimelineCut.make (k : Int) (rnd k).2 ((rnd k).2 + (rnd k).1)
            sc.scene_id).cut_id], ?_, fun hlt => absurd hlt hel, fun _ => ⟨_, rfl⟩⟩
        simp [TimelineScene.add_cut]
      | i' + 1 =>
        have hi2 : i' < rest.length := by simpa [Nat.succ_lt_succ_iff] using hi
        have hi2' : i' < ((genCutsLoop minD maxD rnd rest (k + 1)).1).length := by
          simpa [Nat.succ_lt_succ_iff] using hi'
        obtain ⟨app, h1, h2, h3⟩ := ihget i' hi2 hi2'
        exact ⟨app, by simpa using h1, by simpa using h2, by simpa using h3⟩

/-- C10: `generate_cuts_from_scenes` replaces the cut collection but never
clears a scene's cut-id list: every scene keeps its previous ids and gains
exactly one appended id when its duration is at least `min_cut_duration`
(none otherwise), so repeated invocations accumulate ids from every run. -/
theorem generate_cuts_appends_scene_ids (tm : TimelineManager) (rnd : Nat → ℚ × ℚ) :
    ((tm.generate_cuts_from_scenes rnd).1).scenes.length = tm.scenes.length ∧
      ∀ i (hi : i < tm.scenes.length)
        (hi' : i < ((tm.generate_cuts_from_scenes rnd).1).scenes.length),
        ∃ app : List Int,
          ((((tm.generate_cuts_from_scenes rnd).1).scenes.get ⟨i, hi'⟩).cuts
              = (tm.scenes.get ⟨i, hi⟩).cuts ++ app) ∧
            ((tm.scenes.get ⟨i, hi⟩).duration < tm.min_cut_duration → app = []) ∧
            (tm.min_cut_duration ≤ (tm.scenes.get ⟨i, hi⟩).duration →
              ∃ cid, app = [cid]) := by
  have hsc : ((tm.generate_cuts_from_scenes rnd).1).scenes
      = (genCutsLoop tm.min_cut_duration tm.max_cut_duration rnd tm.scenes 0).1 := by
    simp [TimelineManager.generate_cuts_from_scenes, update_timeline_duration_scenes]
  obtain ⟨hlen, hget⟩ :=
    genCutsLoop_scenes tm.min_cut_duration tm.max_cut_duration rnd tm.scenes 0
  constructor
  · rw [hsc]; exact hlen
  · intro i hi hi'
    have hi2 : i < ((genCutsLoop tm.min_cut_duration tm.max_cut_duration rnd
        tm.scenes 0).1).length := by rw [← hsc]; exact hi'
    obtain ⟨app, h1, h2, h3⟩ := hget i hi hi2
    refine ⟨app, ?_, h2, h3⟩
    calc ((((tm.generate_cuts_from_scenes rnd).1).scenes).get ⟨i, hi'⟩).cuts
        = (((genCutsLoop tm.min_cut_duration tm.max_cut_duration rnd
            tm.scenes 0).1).get ⟨i, hi2⟩).cuts := by
          congr 1
          exact List.get_of_eq hsc _
      _ = (tm.scenes.get ⟨i, hi⟩).cuts ++ app := h1

/-- Timeline whose single scene already owns the cut id 5 from a previous
generation run. -/
def preloadedTM : TimelineManager :=
  { cuts := []
    scenes := [{ scene_id := 0, start_time := 0, end_time := 10, duration := 10,
                 cuts := [5], selected := false, color := "#6b46c1" }]
    timeline_duration := 0
    min_cut_duration := 3
    max_cut_duration := 7
    min_scene_duration := 3 }

/-- Concrete instantiation of the C10 theorem on a timeline whose scene
already carries a cut id. -/
theorem generate_cuts_appends_scene_ids_witness :
    ((preloadedTM.generate_cuts_from_scenes (fun _ => (4, 1))).1).scenes.length
        = preloadedTM.scenes.length ∧
      ∀ i (hi : i < preloadedTM.scenes.length)
        (hi' : i < ((preloadedTM.generate_cuts_from_scenes (fun _ => (4, 1))).1).scenes.length),
        ∃ app : List Int,
          ((((preloadedTM.generate_cuts_from_scenes (fun _ => (4, 1))).1).scenes.get
              ⟨i, hi'⟩).cuts = (preloadedTM.scenes.get ⟨i, hi⟩).cuts ++ app) ∧
            ((preloadedTM.scenes.get ⟨i, hi⟩).duration < preloadedTM.min_cut_duration →
              app = []) ∧
            (preloadedTM.min_cut_duration ≤ (preloadedTM.scenes.get ⟨i, hi⟩).duration →
              ∃ cid, app = [cid]) :=
  generate_cuts_appends_scene_ids preloadedTM (fun _ => (4, 1))

lemma chainFromTo_append (a b c : ℚ) (D : List (ℚ × ℚ)) (h : ChainFromTo a D b) :
    ChainFromTo a (D ++ [(b, c)]) c := by
  induction D generalizing a with
  | nil =>
    have hab : a = b := h
    exact ⟨hab.symm, rfl⟩
  | cons p t ih =>
    obtain ⟨hp, hch⟩ := h
    exact ⟨hp, ih p.2 hch⟩

lemma chainFromTo_bounds (minDur : ℚ) (hm : 0 < minDur) :
    ∀ (D : List (ℚ × ℚ)) (a b : ℚ), ChainFromTo a D b →
      (∀ p ∈ D, minDur ≤ p.2 - p.1) →
      a ≤ b ∧ ∀ p ∈ D, a ≤ p.1 ∧ p.2 ≤ b := by
  intro D
  induction D with
  | nil =>
    intro a b h _
    exact ⟨le_of_eq h, by simp⟩
  | cons p t ih =>
    intro a b h hd
    obtain ⟨hp, hch⟩ := h
    have hdur : minDur ≤ p.2 - p.1 := hd p (List.mem_cons_self p t)
    obtain ⟨hab, hall⟩ := ih p.2 b hch (fun q hq => hd q (List.mem_cons_of_mem _ hq))
    have hpp : p.1 < p.2 := by linarith
    refine ⟨by rw [← hp]; linarith, ?_⟩
    intro q hq
    rcases List.mem_cons.mp hq with rfl | hq'
    · exact ⟨le_of_eq hp.symm, hab⟩
    · obtain ⟨hq1, hq2⟩ := hall q hq'
      exact ⟨by rw [← hp]; linarith, hq2⟩

lemma chainFromTo_pairwise (minDur : ℚ) (hm : 0 < minDur) :
    ∀ (D : List (ℚ × ℚ)) (a b : ℚ), ChainFromTo a D b →
      (∀ p ∈ D, minDur ≤ p.2 - p.1) →
      D.Pairwise (fun p q => p.2 ≤ q.1) := by
  intro D
  induction D with
  | nil => intro a b _ _; exact List.Pairwise.nil
  | cons p t ih =>
    intro a b h hd
    obtain ⟨hp, hch⟩ := h
    refine List.pairwise_cons.mpr ⟨?_, ih p.2 b hch
      (fun q hq => hd q (List.mem_cons_of_mem _ hq))⟩
    intro q hq
    obtain ⟨_, hall⟩ := chainFromTo_bounds minDur hm t p.2 b hch
      (fun r hr => hd r (List.mem_cons_of_mem _ hr))
    exact (hall q hq).1

lemma detectLoop_inv (sens minDur fps : ℚ) (corr : Nat → ℚ) (k : Nat) :
    (∀ p ∈ (detectLoop sens minDur fps corr k).1, minDur ≤ p.2 - p.1) ∧
      ChainFromTo 0 (detectLoop sens minDur fps corr k).1
        (detectLoop sens minDur fps corr k).2 ∧
      ((detectLoop sens minDur fps corr k).2 = 0 ∨
        ∃ i : Nat, 1 ≤ i ∧ i < k ∧
          (detectLoop sens minDur fps corr k).2 = (i : ℚ) / fps) := by
  induction k with
  | zero =>
    refine ⟨by simp [detectLoop], ?_, Or.inl rfl⟩
    simp only [detectLoop]
    rfl
  | succ k ih =>
    obtain ⟨hdur, hch, hst⟩ := ih
    simp only [detectLoop, detectStep]
    split
    · next hcond =>
      split
      · next happ =>
        refine ⟨?_, ?_, Or.inr ⟨k, hcond.1, Nat.lt_succ_self k, rfl⟩⟩
        · intro p hp
          rcases List.mem_append.mp hp with hp | hp
          · exact hdur p hp
          · simp only [List.mem_singleton] at hp
            subst hp
            simpa using happ
        · exact chainFromTo_append _ _ _ _ hch
      · exact ⟨hdur, hch,
          hst.imp id (fun ⟨i, h1, h2, h3⟩ => ⟨i, h1, Nat.lt_succ_of_lt h2, h3⟩)⟩
    · exact ⟨hdur, hch,
        hst.imp id (fun ⟨i, h1, h2, h3⟩ => ⟨i, h1, Nat.lt_succ_of_lt h2, h3⟩)⟩

lemma detectLoop_quiet (sens minDur fps : ℚ) (corr : Nat → ℚ) :
    ∀ k, (∀ i, 1 ≤ i → i < k → 1 - sens ≤ corr i) →
      detectLoop sens minDur fps corr k = ([], 0) := by
  intro k
  induction k with
  | zero => intro _; rfl
  | succ k ih =>
    intro h
    have hk := ih (fun i h1 h2 => h i h1 (Nat.lt_succ_of_lt h2))
    simp only [detectLoop, hk, detectStep]
    split
    · next hcond =>
      exact absurd hcond.2 (not_lt.mpr (h k hcond.1 (Nat.lt_succ_self k)))
    · rfl

/-- C9: over any abstract similarity stream (any correlation function, frame
rate and frame count with `fps > 0` and `min_scene_duration > 0`), the scenes
`detect_scenes` produces all last at least `min_scene_duration`, are strictly
ordered and non-overlapping, tile `[0, last)` contiguously for some `last ≤
total_duration` with the uncovered trailing segment shorter than the minimum;
a source shorter than `min_scene_duration` yields no scene, and a stream whose
correlation never drops below `1 - sensitivity` yields exactly one scene
spanning the full duration (when the source itself meets the minimum). -/
theorem detect_scenes_spec (sens minDur fps : ℚ) (corr : Nat → ℚ)
    (frame_count : Nat) (hfps : 0 < fps) (hmin : 0 < minDur) :
    (∀ p ∈ detect_scenes sens minDur fps corr frame_count, minDur ≤ p.2 - p.1) ∧
      (detect_scenes sens minDur fps corr frame_count).Pairwise
        (fun p q => p.2 ≤ q.1) ∧
      (∃ last, ChainFromTo 0 (detect_scenes sens minDur fps corr frame_count) last ∧
        0 ≤ last ∧ last ≤ (frame_count : ℚ) / fps ∧
        (frame_count : ℚ) / fps - last < minDur) ∧
      ((frame_count : ℚ) / fps < minDur →
        detect_scenes sens minDur fps corr frame_count = []) ∧
      ((∀ i, 1 ≤ i → i < frame_count → 1 - sens ≤ corr i) →
        minDur ≤ (frame_count : ℚ) / fps →
        detect_scenes sens minDur fps corr frame_count
          = [(0, (frame_count : ℚ) / fps)]) := by
  obtain ⟨hdur, hch, hst⟩ := detectLoop_inv sens minDur fps corr frame_count
  have htotnn : 0 ≤ (frame_count : ℚ) / fps := by positivity
  have hst2nn : 0 ≤ (detectLoop sens minDur fps corr frame_count).2 := by
    rcases hst with h0 | ⟨i, _, _, hi⟩
    · rw [h0]
    · rw [hi]; positivity
  have hst2le : (detectLoop sens minDur fps corr frame_count).2
      ≤ (frame_count : ℚ) / fps := by
    rcases hst with h0 | ⟨i, _, h2, hi⟩
    · rw [h0]; exact htotnn
    · rw [hi]
      gcongr
  have hD : detect_scenes sens minDur fps corr frame_count
      = if minDur ≤ (frame_count : ℚ) / fps
            - (detectLoop sens minDur fps corr frame_count).2 then
          (detectLoop sens minDur fps corr frame_count).1
            ++ [((detectLoop sens minDur fps corr frame_count).2,
                 (frame_count : ℚ) / fps)]
        else (detectLoop sens minDur fps corr frame_count).1 := rfl
  have hdurD : ∀ p ∈ detect_scenes sens minDur fps corr frame_count,
      minDur ≤ p.2 - p.1 := by
    rw [hD]
    split
    · next happ =>
      intro p hp
      rcases List.mem_append.mp hp with hp | hp
      · exact hdur p hp
      · simp only [List.mem_singleton] at hp
        subst hp
        simpa using happ
    · exact hdur
  have hchD : ∃ last,
      ChainFromTo 0 (detect_scenes sens minDur fps corr frame_count) last ∧
        0 ≤ last ∧ last ≤ (frame_count : ℚ) / fps ∧
        (frame_count : ℚ) / fps - last < minDur := by
    rw [hD]
    split
    · exact ⟨(frame_count : ℚ) / fps, chainFromTo_append _ _ _ _ hch, htotnn,
        le_refl _, by linarith⟩
    · next hno =>
      exact ⟨(detectLoop sens minDur fps corr frame_count).2, hch, hst2nn, hst2le,
        by linarith [not_le.mp hno]⟩
  refine ⟨hdurD, ?_, hchD, ?_, ?_⟩
  · obtain ⟨last, hcl, _, _, _⟩ := hchD
    exact chainFromTo_pairwise minDur hmin _ 0 last hcl hdurD
  · intro hlt
    by_contra hne
    obtain ⟨p, hp⟩ := List.exists_mem_of_ne_nil _ hne
    obtain ⟨last, hcl, _, hlast, _⟩ := hchD
    obtain ⟨_, hbnd⟩ := chainFromTo_bounds minDur hmin _ 0 last hcl hdurD
    have h1 := hbnd p hp
    have h2 := hdurD p hp
    linarith
  · intro hq hge
    have hquiet := detectLoop_quiet sens minDur fps corr frame_count hq
    have h1 : (detectLoop sens minDur fps corr frame_count).1 = [] := by rw [hquiet]
    have h2 : (detectLoop sens minDur fps corr frame_count).2 = 0 := by rw [hquiet]
    rw [hD, h1, h2, if_pos (by simpa using hge)]
    simp

/-- Concrete instantiation of the scene-detection theorem: three frames at one
frame per second with constant correlation 1, sensitivity 1/2 and minimum
scene duration 1. -/
theorem detect_scenes_spec_witness :
    (∀ p ∈ detect_scenes (1/2) 1 1 (fun _ => 1) 3, (1 : ℚ) ≤ p.2 - p.1) ∧
      (detect_scenes (1/2) 1 1 (fun _ => 1) 3).Pairwise (fun p q => p.2 ≤ q.1) ∧
      (∃ last, ChainFromTo 0 (detect_scenes (1/2) 1 1 (fun _ => 1) 3) last ∧
        0 ≤ last ∧ last ≤ (3 : ℚ) / 1 ∧ (3 : ℚ) / 1 - last < 1) ∧
      ((3 : ℚ) / 1 < 1 → detect_scenes (1/2) 1 1 (fun _ => 1) 3 = []) ∧
      ((∀ i, 1 ≤ i → i < 3 → 1 - 1/2 ≤ (fun _ => (1 : ℚ)) i) →
        (1 : ℚ) ≤ (3 : ℚ) / 1 →
        detect_scenes (1/2) 1 1 (fun _ => 1) 3 = [(0, (3 : ℚ) / 1)]) := by
  have h := detect_scenes_spec (1/2) 1 1 (fun _ => 1) 3 (by norm_num) (by norm_num)
  simpa using h
